import Mathlib

/-!
# Verification of the laughter-practice audio core

Shallow embedding of the real-time laugh-detection pipeline and the
best-clip extraction/scoring step of the `lafter-rebuild` repository:

* `detectLaugh` / `runDetector` — the sustain + cooldown laugh detector of
  `src/hooks/useAudioRecorder.ts` (`detectLaugh`), with the tunable
  parameters (volume threshold, minimum sustain, cooldown) made explicit.
* `calculateVolume` — the RMS loudness estimator of the same hook.
* `startRecording`, `pauseRecording`, `stopRecording`, timer ticks — the
  recording-session controller state of the same hook.
* `extractClipSegment`, `normalizeAudio`, `selectBestScored`,
  `extractBestLaugh` — the clip pipeline of
  `src/services/audio/LaughClipExtractor.ts`.
* `predict` — the YAMNet scoring wrapper of
  `src/services/audio/YamnetService.ts`.

Times are in integer milliseconds (`ℤ`, mirroring `Date.now()` and the
signed subtractions the source performs); audio samples are exact
rationals/reals standing for the source's floating-point samples.
-/

namespace Lafter

/-! ## Laugh event detector (`useAudioRecorder.ts`, `detectLaugh`) -/

/-- The mutable detector cells of the hook: `loudStartTimeRef`,
`lastLaughTimeRef` and `laughCountRef`.  At session start the hook resets
them to `none` / `0` / `0`. -/
structure DetectState where
  loudStart : Option ℤ
  lastLaugh : ℤ
  count : ℕ
  deriving Repr, DecidableEq

/-- Initial detector state installed by `startRecording`:
`loudStartTimeRef.current = null`, `lastLaughTimeRef.current = 0`,
`laughCountRef.current = 0`. -/
def DetectState.init : DetectState := ⟨none, 0, 0⟩

/-- A detection, as recorded when `detectLaugh` increments the laugh count:
`firedAt` is the `Date.now()` of the firing call, `loudSince` the value of
`loudStartTimeRef` consumed by the firing. -/
structure LaughEvent where
  firedAt : ℤ
  loudSince : ℤ
  deriving Repr, DecidableEq

/-- One call of `detectLaugh(volume)` at time `now`, with volume threshold
`θ` (`settings.audio.threshold`), minimum sustain `m` (`LAUGH_DURATION_MIN`)
and cooldown `c` (`LAUGH_COOLDOWN`).  Mirrors the source: a strictly
above-threshold sample starts (or continues) a loud period; the counter
fires when the period lasted at least `m` ms and at least `c` ms passed
since the last firing, which also resets `loudStart`; a sample at or below
the threshold resets `loudStart`. -/
def detectLaugh (θ m c : ℤ) (s : DetectState) (now volume : ℤ) :
    DetectState × Option LaughEvent :=
  if θ < volume then
    let ls := s.loudStart.getD now
    let loudDuration := now - ls
    let timeSinceLastLaugh := now - s.lastLaugh
    if m ≤ loudDuration ∧ c ≤ timeSinceLastLaugh then
      (⟨none, now, s.count + 1⟩, some ⟨now, ls⟩)
    else
      (⟨some ls, s.lastLaugh, s.count⟩, none)
  else
    (⟨none, s.lastLaugh, s.count⟩, none)

/-- Feed a sequence of `(now, volume)` samples (the 100 ms volume-interval
callbacks) through `detectLaugh`, collecting the fired events in order. -/
def runDetector (θ m c : ℤ) (s : DetectState) :
    List (ℤ × ℤ) → DetectState × List LaughEvent
  | [] => (s, [])
  | (now, vol) :: rest =>
    let step := detectLaugh θ m c s now vol
    let tail := runDetector θ m c step.1 rest
    (tail.1, step.2.toList ++ tail.2)

/-- The hardcoded v2.1 constants of the hook. -/
def LAUGH_DURATION_MIN : ℤ := 100

/-- `LAUGH_COOLDOWN` of the hook. -/
def LAUGH_COOLDOWN : ℤ := 500

/-- A session trace of `n` samples, one every 100 ms starting at absolute
time `start`, all with the same volume `v`. -/
def constantTrace (start : ℤ) (n : ℕ) (v : ℤ) : List (ℤ × ℤ) :=
  (List.range n).map fun k => (start + 100 * (k : ℤ), v)

/-! ## Loudness estimator (`useAudioRecorder.ts`, `calculateVolume`) -/

/-- `VOLUME_SMOOTHING` of the hook. -/
def VOLUME_SMOOTHING : ℝ := 0.8

/-- The unrounded smoothed loudness: RMS of the analyser's byte magnitudes
(each 0–255), normalized by `rms / 128 * 100` and capped at 100, then
exponentially smoothed against `smoothedVolumeRef` with factor 0.8.
`frame = none` models the `!analyserRef.current` early return (no frame
available); the analyser otherwise always supplies `fftSize / 2 = 128`
bins. -/
noncomputable def smoothedVolume (frame : Option (List ℕ)) (prev : ℝ) : ℝ :=
  match frame with
  | none => 0
  | some data =>
    let sum : ℝ := (data.map fun b => ((b : ℝ) * b)).sum
    let rms : ℝ := Real.sqrt (sum / data.length)
    let normalized : ℝ := min 100 (rms / 128 * 100)
    VOLUME_SMOOTHING * prev + (1 - VOLUME_SMOOTHING) * normalized

/-- `calculateVolume`: the value returned to callers,
`Math.round(smoothedVolumeRef.current)` (0 when the analyser is absent;
JavaScript `Math.round` is `⌊x + 1/2⌋`, Lean's `round`). -/
noncomputable def calculateVolume (frame : Option (List ℕ)) (prev : ℝ) : ℤ :=
  match frame with
  | none => 0
  | some data => round (smoothedVolume (some data) prev)

/-! ## Recording session controller (`useAudioRecorder.ts`) -/

/-- `MediaRecorder.state`. -/
inductive MRState where
  | inactive
  | recording
  | paused
  deriving Repr, DecidableEq

/-- The controller state of the hook: the `AudioRecorderState` React state
together with the refs that drive it.  `durationInterval` /
`volumeInterval` record whether the corresponding `setInterval` handle is
registered; `hasMediaRecorder` / `hasStream` / `hasAnalyser` whether the
refs hold live objects; `startTime` is `startTimeRef`.  The loudness value
fed to `volumeTick` is the result of `calculateVolume`, modelled above. -/
structure RecorderState where
  isRecording : Bool
  isPaused : Bool
  duration : ℚ
  volume : ℤ
  laughCount : ℕ
  error : Option String
  mrState : MRState
  hasMediaRecorder : Bool
  hasStream : Bool
  hasAnalyser : Bool
  durationInterval : Bool
  volumeInterval : Bool
  startTime : ℤ
  detect : DetectState
  deriving Repr, DecidableEq

/-- The capture environment `startRecording` probes: secure context,
presence of `navigator.mediaDevices.getUserMedia`, and whether the user
grants the microphone permission. -/
structure CaptureEnv where
  secureContext : Bool
  hasMicrophone : Bool
  userMediaGranted : Bool
  deriving Repr, DecidableEq

/-- `startRecording` at time `now`.  Mirrors the source's control flow: it
clears `error`, rejects (sets `error` and throws) when the context is
insecure, the capture API is missing, or `getUserMedia` fails, and
otherwise unconditionally installs a fresh capture — stream, analyser,
recorder, both 100 ms intervals — and resets duration, laugh detection and
flags.  The source never inspects `isRecording`/`isPaused` before doing
so.  `.error` is the thrown rejection the caller observes. -/
def startRecording (env : CaptureEnv) (now : ℤ) (s : RecorderState) :
    Except String RecorderState :=
  if !env.secureContext then
    .error "Recording requires HTTPS. Please use https:// URL or localhost."
  else if !env.hasMicrophone then
    .error "Microphone access not available in this browser."
  else if !env.userMediaGranted then
    .error "Permission denied"
  else
    .ok { isRecording := true
          isPaused := false
          duration := 0
          volume := s.volume
          laughCount := 0
          error := none
          mrState := .recording
          hasMediaRecorder := true
          hasStream := true
          hasAnalyser := true
          durationInterval := true
          volumeInterval := true
          startTime := now
          detect := DetectState.init }

/-- `pauseRecording`: only `mediaRecorder.pause()` plus `isPaused := true`,
and only when the recorder exists and is `recording`; nothing else — in
particular neither interval is touched. -/
def pauseRecording (s : RecorderState) : RecorderState :=
  if s.hasMediaRecorder ∧ s.mrState = .recording then
    { s with mrState := .paused, isPaused := true }
  else s

/-- `resumeRecording`: `mediaRecorder.resume()` plus `isPaused := false`,
only from the `paused` recorder state. -/
def resumeRecording (s : RecorderState) : RecorderState :=
  if s.hasMediaRecorder ∧ s.mrState = .paused then
    { s with mrState := .recording, isPaused := false }
  else s

/-- `stopRecording` (final state once the returned promise resolves):
clears both intervals first; if no recorder is active it only resets the
flags, otherwise it stops the recorder, drops stream and analyser and
resets the flags. -/
def stopRecording (s : RecorderState) : RecorderState :=
  let s := { s with durationInterval := false, volumeInterval := false }
  if !s.hasMediaRecorder ∨ s.mrState = .inactive then
    { s with isRecording := false, isPaused := false, volume := 0 }
  else
    { s with isRecording := false, isPaused := false, volume := 0,
             mrState := .inactive, hasStream := false, hasAnalyser := false }

/-- One firing of the 100 ms duration interval: recomputes
`duration = (Date.now() - startTimeRef) / 1000`.  The callback can only run
while its interval is registered. -/
def durationTick (now : ℤ) (s : RecorderState) : RecorderState :=
  if s.durationInterval then
    { s with duration := ((now - s.startTime : ℤ) : ℚ) / 1000 }
  else s

/-- One firing of the 100 ms volume interval: stores the loudness value
`vol` (computed by `calculateVolume`) and runs `detectLaugh` on it with
threshold `θ`, sustain `m` and cooldown `c`, updating the laugh count.
The callback can only run while its interval is registered. -/
def volumeTick (θ m c : ℤ) (now vol : ℤ) (s : RecorderState) : RecorderState :=
  if s.volumeInterval then
    let step := detectLaugh θ m c s.detect now vol
    { s with volume := vol, detect := step.1, laughCount := step.1.count }
  else s

/-- Component teardown (the unmount `useEffect` cleanup): clears both
intervals, stops any active recorder, stops the stream's tracks and closes
the audio context. -/
def cleanup (s : RecorderState) : RecorderState :=
  { s with durationInterval := false
           volumeInterval := false
           mrState := .inactive
           hasStream := false }

/-- A controller mid-recording: two seconds in, one laugh counted, both
intervals live. -/
def midRecordingState : RecorderState :=
  { isRecording := true
    isPaused := false
    duration := 2
    volume := 30
    laughCount := 1
    error := none
    mrState := .recording
    hasMediaRecorder := true
    hasStream := true
    hasAnalyser := true
    durationInterval := true
    volumeInterval := true
    startTime := 1000
    detect := ⟨none, 1500, 1⟩ }

/-! ## Clip segment extractor (`LaughClipExtractor.ts`, `extractClipSegment`) -/

/-- A decoded `AudioBuffer`: sample rate in Hz, `length` samples per
channel, channel data as exact numbers standing for the float samples. -/
structure AudioBufferE (α : Type) where
  sampleRate : ℕ
  length : ℕ
  channels : List (List α)

/-- An `AudioBuffer` is well-formed when every channel holds exactly
`length` samples, as `createBuffer`/`decodeAudioData` guarantee. -/
def AudioBufferE.WF {α : Type} (b : AudioBufferE α) : Prop :=
  ∀ ch ∈ b.channels, ch.length = b.length

/-- `CLIP_DURATION_MS` of `LaughClipExtractor`. -/
def CLIP_DURATION_MS : ℕ := 3000

/-- Samples of one clip: `Math.floor((clipMs / 1000) * sampleRate)`. -/
def clipSamples (clipMs rate : ℕ) : ℕ := clipMs * rate / 1000

/-- The clamped start sample chosen by `extractClipSegment`: the window is
centred on `Math.floor((timestampMs / 1000) * sampleRate)`, shifted right
to 0 when it starts early and left to end at the last sample when it
overruns. -/
def clipStart (clipMs : ℕ) (rate total : ℕ) (timestampMs : ℤ) : ℤ :=
  let clip : ℤ := clipSamples clipMs rate
  let center : ℤ := Int.fdiv (timestampMs * rate) 1000
  let start0 : ℤ := center - (clipSamples clipMs rate / 2 : ℕ)
  let start1 : ℤ := if start0 < 0 then 0 else start0
  if start1 + clip > (total : ℤ) then (total : ℤ) - clip else start1

/-- `extractClipSegment(sourceBuffer, timestampMs)` with clip duration
`clipMs` (3000 in the source): clamp the centred window, fail with `none`
when it still cannot fit (`startSample < 0 || clipDurationSamples >
totalSamples`), otherwise copy `clipDurationSamples` samples per channel
starting at the clamped index (`clipData[i] = sourceData[startSample + i]`). -/
def extractClipSegment {α : Type} [Inhabited α] (clipMs : ℕ)
    (src : AudioBufferE α) (timestampMs : ℤ) : Option (AudioBufferE α) :=
  let clip := clipSamples clipMs src.sampleRate
  let start := clipStart clipMs src.sampleRate src.length timestampMs
  if start < 0 ∨ (clip : ℤ) > (src.length : ℤ) then none
  else some
    { sampleRate := src.sampleRate
      length := clip
      channels := src.channels.map fun ch =>
        (List.range clip).map fun i => ch.getD (start.toNat + i) default }

/-! ## Clip normalizer (`LaughClipExtractor.ts`, `normalizeAudio`) -/

/-- Peak of one channel, as the source computes it:
`peak = Math.max(peak, Math.abs(x))` folded from `0`. -/
def channelPeak {α : Type} [LinearOrderedField α] (ch : List α) : α :=
  ch.foldl (fun p x => max p |x|) 0

/-- The gain the source applies to one channel:
`peak > 0 ? Math.min(targetAmplitude / peak, 1.0) : 1.0`, where
`targetAmplitude = Math.pow(10, TARGET_PEAK_DB / 20)` is passed in as `t`. -/
def channelGain {α : Type} [LinearOrderedField α] (t : α) (ch : List α) : α :=
  if 0 < channelPeak ch then min (t / channelPeak ch) 1 else 1

/-- `normalizeAudio(buffer)`: the source loops over the channels and, for
each channel separately, finds that channel's peak, derives that channel's
gain and scales that channel's samples by it. -/
def normalizeAudio {α : Type} [LinearOrderedField α] (t : α)
    (channels : List (List α)) : List (List α) :=
  channels.map fun ch => ch.map (· * channelGain t ch)

/-- Modelled from the spec's words (§4.5), for comparison with
`normalizeAudio`: a single peak over all channels, one uniform gain
`min(t / peak, 1)` (`1` on silence) applied to every sample of every
channel. -/
def normalizeAudioUniform {α : Type} [LinearOrderedField α] (t : α)
    (channels : List (List α)) : List (List α) :=
  let peak := channels.foldl (fun p ch => ch.foldl (fun q x => max q |x|) p) 0
  let gain := if 0 < peak then min (t / peak) 1 else 1
  channels.map fun ch => ch.map (· * gain)

/-! ## Quality scorer (`YamnetService.ts` and `LaughClipExtractor.ts`) -/

/-- Laughter-family class indices of the AudioSet ontology used by
`YamnetService`. -/
def LAUGHTER_INDEX : ℕ := 16

/-- Outcome of asking the YAMNet collaborator for scores: the model may be
absent (`this.model === null`), inference may throw, or it yields the
scores tensor, one row of per-class scores per audio frame. -/
inductive InferResult where
  | notLoaded
  | failed
  | ok (frames : List (List ℚ))
  deriving Repr, DecidableEq

/-- `scores.mean(0)` at class index `i`: the mean over frames of that
class's score. -/
def meanScore (frames : List (List ℚ)) (i : ℕ) : ℚ :=
  (frames.map fun f => f.getD i 0).sum / frames.length

/-- `YamnetService.predict`: `0` when the model is not loaded, `0` when
inference throws (caught), otherwise the **sum** of the six laughter-family
per-class mean scores (indices 16–21). -/
def predict (r : InferResult) : ℚ :=
  match r with
  | .notLoaded => 0
  | .failed => 0
  | .ok frames =>
      meanScore frames LAUGHTER_INDEX + meanScore frames 17 +
      meanScore frames 18 + meanScore frames 19 +
      meanScore frames 20 + meanScore frames 21

/-- `scoreClip`: resample (which may throw — caught, score `0`) and feed
the 16 kHz mono data to `predict`. -/
def scoreClip (resampleOk : Bool) (r : InferResult) : ℚ :=
  if resampleOk then predict r else 0

/-- `MIN_YAMNET_SCORE` of `LaughClipExtractor`. -/
def MIN_YAMNET_SCORE : ℚ := 2 / 5

/-- A candidate as accumulated by `extractBestLaugh`'s loop:
`{ buffer, timestamp, score }` (the buffer itself does not influence
selection). -/
structure ScoredCand where
  time : ℤ
  score : ℚ
  deriving Repr, DecidableEq

/-- Insertion step of a stable descending sort by score: the new element
goes in front of the first strictly lower-scored one, hence after all
earlier elements of equal score. -/
def insertByScoreDesc (c : ScoredCand) : List ScoredCand → List ScoredCand
  | [] => [c]
  | x :: xs => if x.score < c.score then c :: x :: xs else x :: insertByScoreDesc c xs

/-- `candidates.sort((a, b) => b.score - a.score)`: JavaScript's
`Array.prototype.sort` is stable, so its output is the unique stable
descending order by score, computed here by stable insertion. -/
def sortByScoreDesc (l : List ScoredCand) : List ScoredCand :=
  l.foldl (fun acc c => insertByScoreDesc c acc) []

/-- Running best of a left fold with strict replacement (`>`): the first
maximal element of `b :: l` in list order. -/
def bestOf (b : ScoredCand) (l : List ScoredCand) : ScoredCand :=
  l.foldl (fun best x => if best.score < x.score then x else best) b

/-- The selection pass of `extractBestLaugh` on the scored candidates:
keep those with `score >= MIN_YAMNET_SCORE` (the loop's filter), sort
descending by score, take `candidates[0]` — `none` when nothing survives. -/
def selectBestScored (minScore : ℚ) (cands : List ScoredCand) : Option ScoredCand :=
  (sortByScoreDesc (cands.filter fun c => minScore ≤ c.score)).head?

/-- Per-laugh inputs of `extractBestLaugh`'s candidate loop: the laugh's
`time` and the outcomes of the fallible collaborators for its clip
(resampling, YAMNet inference). -/
structure LaughInput where
  time : ℤ
  resampleOk : Bool
  infer : InferResult

/-- The candidate loop plus selection of `extractBestLaugh` on a decoded
session buffer: extract each laugh's segment (skipping failures), score it
(failures caught as `0`), keep it only when the score reaches
`MIN_YAMNET_SCORE`, then pick the top of the stable descending sort.
All per-candidate failures are absorbed; the result is an `Option`, never
an exception. -/
def extractBestLaugh (src : AudioBufferE ℚ) (laughs : List LaughInput) :
    Option ScoredCand :=
  if laughs.isEmpty then none
  else if src.length < clipSamples CLIP_DURATION_MS src.sampleRate then none
  else
    selectBestScored MIN_YAMNET_SCORE <| laughs.filterMap fun l =>
      match extractClipSegment CLIP_DURATION_MS src l.time with
      | none => none
      | some _clip => some ⟨l.time, scoreClip l.resampleOk l.infer⟩

/-! ## Detector lemmas -/

/-- Run invariant: with a nonnegative cooldown, the firing times of a run
are pairwise at least the cooldown apart, every firing happens at least a
cooldown after the incoming `lastLaugh`, and `lastLaugh` tracks the latest
firing monotonically. -/
lemma runDetector_spacing_inv (θ m c : ℤ) (hc : 0 ≤ c) :
    ∀ (trace : List (ℤ × ℤ)) (s : DetectState),
      List.Pairwise (fun a b => c ≤ b - a)
        ((runDetector θ m c s trace).2.map (·.firedAt)) ∧
      (∀ e ∈ (runDetector θ m c s trace).2, s.lastLaugh + c ≤ e.firedAt) ∧
      (∀ e ∈ (runDetector θ m c s trace).2,
        e.firedAt ≤ (runDetector θ m c s trace).1.lastLaugh) ∧
      s.lastLaugh ≤ (runDetector θ m c s trace).1.lastLaugh := by
  intro trace
  induction trace with
  | nil => intro s; simp [runDetector]
  | cons sample rest ih =>
    intro s
    obtain ⟨now, vol⟩ := sample
    by_cases hvol : θ < vol
    · by_cases hfire : m ≤ now - s.loudStart.getD now ∧ c ≤ now - s.lastLaugh
      · have hd : detectLaugh θ m c s now vol =
            (⟨none, now, s.count + 1⟩, some ⟨now, s.loudStart.getD now⟩) := by
          simp [detectLaugh, hvol, hfire.1, hfire.2]
        obtain ⟨ihp, ihlast, ihup, ihmono⟩ := ih ⟨none, now, s.count + 1⟩
        dsimp only at ihlast ihup ihmono
        simp only [runDetector, hd, Option.toList_some, List.singleton_append,
          List.map_cons, List.pairwise_cons, List.mem_cons, List.mem_map]
        refine ⟨⟨?_, ihp⟩, ?_, ?_, ?_⟩
        · rintro b ⟨e, he, rfl⟩
          have := ihlast e he
          omega
        · rintro e (rfl | he')
          · dsimp only; omega
          · have := ihlast e he'
            omega
        · rintro e (rfl | he')
          · dsimp only; omega
          · exact ihup e he'
        · omega
      · have hd : detectLaugh θ m c s now vol =
            (⟨some (s.loudStart.getD now), s.lastLaugh, s.count⟩, none) := by
          rw [detectLaugh, if_pos hvol, if_neg hfire]
        obtain ⟨ihp, ihlast, ihup, ihmono⟩ :=
          ih ⟨some (s.loudStart.getD now), s.lastLaugh, s.count⟩
        dsimp only at ihlast ihup ihmono
        simp only [runDetector, hd, Option.toList_none, List.nil_append]
        exact ⟨ihp, ihlast, ihup, ihmono⟩
    · have hd : detectLaugh θ m c s now vol =
          (⟨none, s.lastLaugh, s.count⟩, none) := by
        rw [detectLaugh, if_neg hvol]
      obtain ⟨ihp, ihlast, ihup, ihmono⟩ := ih ⟨none, s.lastLaugh, s.count⟩
      dsimp only at ihlast ihup ihmono
      simp only [runDetector, hd, Option.toList_none, List.nil_append]
      exact ⟨ihp, ihlast, ihup, ihmono⟩

/-- C2 (corrected): the cooldown does space out the detector's **firing
times** — for any threshold/sustain parameters, any nonnegative cooldown
`c`, any session start `S` and any sample sequence, the session-relative
offsets of the moments at which events fire are pairwise at least `c`
apart.  (The loudSince-based offsets of the original claim are not so
spaced; see the counterexample.) -/
theorem detector_cooldown_spacing (θ m c S : ℤ) (trace : List (ℤ × ℤ))
    (hc : 0 ≤ c) :
    List.Pairwise (fun a b => c ≤ b - a)
      (((runDetector θ m c DetectState.init trace).2).map
        (fun e => e.firedAt - S)) := by
  have h := (runDetector_spacing_inv θ m c hc trace DetectState.init).1
  rw [List.pairwise_map] at h ⊢
  exact h.imp (by intro a b hab; omega)

/-- Witness for `detector_cooldown_spacing` at the hook's cooldown 500 and
a concrete seven-sample session. -/
theorem detector_cooldown_spacing_witness :
    (0 : ℤ) ≤ 500 ∧
    List.Pairwise (fun a b => (500 : ℤ) ≤ b - a)
      (((runDetector 50 100 500 DetectState.init
          (constantTrace 10000 7 60)).2).map (fun e => e.firedAt - 10000)) :=
  ⟨by norm_num, detector_cooldown_spacing 50 100 500 10000 _ (by norm_num)⟩

set_option maxRecDepth 8000 in
/-- Counterexample to C2 as stated: feeding seven constant loud samples
(volume 60, threshold 50, sustain 100 ms, cooldown 500 ms, session start
10000) emits two events whose `timeOffsetMs = loudSince − sessionStart`
values are 0 and 200 — closer than the 500 ms cooldown. -/
theorem loudSince_offsets_violate_cooldown :
    ((runDetector 50 100 500 DetectState.init
        (constantTrace 10000 7 60)).2).map (fun e => e.loudSince - 10000)
      = [0, 200] ∧
    ¬ List.Pairwise (fun a b => (500 : ℤ) ≤ b - a)
      (((runDetector 50 100 500 DetectState.init
          (constantTrace 10000 7 60)).2).map (fun e => e.loudSince - 10000)) := by
  constructor
  · decide
  · decide

set_option maxRecDepth 8000 in
/-- C1 (corrected): with threshold 55, sustain 300 ms, cooldown 1500 ms and
a constant above-threshold sample every 100 ms for 5000 ms (offsets 0,
100, …, 4900 from a session starting at absolute time 100000; detector
state `Quiet`, `lastEventAt = 0`), the detector fires exactly **four**
times, at offsets 300, 1800, 3300 and 4800 from session start. -/
theorem laugh_cadence_four_events :
    ((runDetector 55 300 1500 DetectState.init
        (constantTrace 100000 50 60)).2).map (fun e => e.firedAt - 100000)
      = [300, 1800, 3300, 4800] ∧
    (runDetector 55 300 1500 DetectState.init
        (constantTrace 100000 50 60)).1.count = 4 := by
  constructor
  · decide
  · decide

set_option maxRecDepth 8000 in
/-- Counterexample to C1 as stated: the same 5000 ms constant-loud session
does not emit exactly 3 events — a fourth firing occurs (at offset
4800, one cooldown after the third). -/
theorem laugh_cadence_not_three_events :
    ((runDetector 55 300 1500 DetectState.init
        (constantTrace 100000 50 60)).2).length ≠ 3 := by
  decide

/-! ## Loudness estimator lemmas -/

/-- The unrounded smoothed loudness stays in `[0, 100]` whenever the
previous smoothed value is in `[0, 100]`. -/
lemma smoothedVolume_mem (frame : Option (List ℕ)) (prev : ℝ)
    (h0 : 0 ≤ prev) (h1 : prev ≤ 100) :
    0 ≤ smoothedVolume frame prev ∧ smoothedVolume frame prev ≤ 100 := by
  cases frame with
  | none =>
    constructor <;> simp [smoothedVolume]
  | some data =>
    have hs : smoothedVolume (some data) prev
        = 0.8 * prev + (1 - 0.8) *
            min 100 (Real.sqrt ((data.map fun b => ((b : ℝ) * b)).sum /
              data.length) / 128 * 100) := rfl
    have hz : (0 : ℝ) ≤ Real.sqrt ((data.map fun b => ((b : ℝ) * b)).sum /
        data.length) / 128 * 100 := by positivity
    have hmin0 : (0 : ℝ) ≤ min 100 (Real.sqrt ((data.map fun b =>
        ((b : ℝ) * b)).sum / data.length) / 128 * 100) :=
      le_min (by norm_num) hz
    have hmin1 : min 100 (Real.sqrt ((data.map fun b =>
        ((b : ℝ) * b)).sum / data.length) / 128 * 100) ≤ 100 := min_le_left _ _
    rw [hs]
    constructor <;> nlinarith

/-- Rounding keeps `[0, 100]`: `Math.round` of a value in the interval is
an integer in the interval. -/
lemma round_mem_of_mem (x : ℝ) (h0 : 0 ≤ x) (h1 : x ≤ 100) :
    0 ≤ round x ∧ round x ≤ 100 := by
  rw [round_eq]
  constructor
  · exact Int.le_floor.mpr (by push_cast; linarith)
  · have hfl : (⌊x + 1 / 2⌋ : ℝ) ≤ x + 1 / 2 := Int.floor_le _
    have hlt : (⌊x + 1 / 2⌋ : ℝ) < ((101 : ℤ) : ℝ) := by push_cast; linarith
    have : ⌊x + 1 / 2⌋ < (101 : ℤ) := by exact_mod_cast hlt
    omega

/-- C8: for every frame and previous smoothed value in `[0, 100]`, both
the stored smoothed loudness and the rounded value returned by
`calculateVolume` are again in `[0, 100]`, and an absent (empty /
unavailable) frame yields `0`. -/
theorem loudness_estimate_bounds (frame : Option (List ℕ)) (prev : ℝ)
    (h0 : 0 ≤ prev) (h1 : prev ≤ 100) :
    (0 ≤ smoothedVolume frame prev ∧ smoothedVolume frame prev ≤ 100) ∧
    (0 ≤ calculateVolume frame prev ∧ calculateVolume frame prev ≤ 100) ∧
    smoothedVolume none prev = 0 ∧ calculateVolume none prev = 0 := by
  refine ⟨smoothedVolume_mem frame prev h0 h1, ?_, rfl, rfl⟩
  cases frame with
  | none => constructor <;> simp [calculateVolume]
  | some data =>
    have hb := smoothedVolume_mem (some data) prev h0 h1
    have hc : calculateVolume (some data) prev
        = round (smoothedVolume (some data) prev) := rfl
    rw [hc]
    exact round_mem_of_mem _ hb.1 hb.2

/-- Witness for `loudness_estimate_bounds`: a concrete 4-bin frame of
magnitude 128 and previous smoothed value 50. -/
theorem loudness_estimate_bounds_witness :
    ((0 : ℝ) ≤ 50 ∧ (50 : ℝ) ≤ 100) ∧
    ((0 ≤ smoothedVolume (some (List.replicate 4 128)) 50 ∧
        smoothedVolume (some (List.replicate 4 128)) 50 ≤ 100) ∧
      (0 ≤ calculateVolume (some (List.replicate 4 128)) 50 ∧
        calculateVolume (some (List.replicate 4 128)) 50 ≤ 100) ∧
      smoothedVolume none 50 = 0 ∧ calculateVolume none 50 = 0) :=
  ⟨⟨by norm_num, by norm_num⟩,
    loudness_estimate_bounds (some (List.replicate 4 128)) 50
      (by norm_num) (by norm_num)⟩

/-! ## Clip extraction lemmas -/

/-- The source's per-sample copy loop equals taking the contiguous window,
provided the window fits in the channel. -/
lemma window_copy {α : Type} [Inhabited α] (ch : List α) (s n : ℕ)
    (h : s + n ≤ ch.length) :
    (List.range n).map (fun i => ch.getD (s + i) default) = (ch.drop s).take n := by
  apply List.ext_getElem
  · simp only [List.length_map, List.length_range, List.length_take,
      List.length_drop]
    omega
  · intro i h1 h2
    have hi : i < n := by simpa using h1
    simp only [List.getElem_map, List.getElem_range]
    rw [List.getD_eq_getElem ch default (by omega)]
    rw [List.getElem_take (ch.drop s), List.getElem_drop ch]

/-- When the clip fits in the source, the clamped start lands in
`[0, totalSamples − clipSamples]`. -/
lemma clipStart_bounds (clipMs rate total : ℕ) (t : ℤ)
    (h : clipSamples clipMs rate ≤ total) :
    0 ≤ clipStart clipMs rate total t ∧
      clipStart clipMs rate total t + clipSamples clipMs rate ≤ total := by
  simp only [clipStart]
  split_ifs <;> constructor <;> omega

/-- C4: clip extraction fails exactly when the source is shorter than the
clip; otherwise it yields a segment of exactly `clipSamples` samples per
channel, copied contiguously from the start index clamped into
`[0, totalSamples − clipSamples]`; and on a source of exactly clip length
the request at `timeOffsetMs = 0` is clamped to start 0, not rejected. -/
theorem clip_extraction_clamped_window (clipMs : ℕ) (src : AudioBufferE ℚ)
    (t : ℤ) (hwf : src.WF) :
    (extractClipSegment clipMs src t = none ↔
      src.length < clipSamples clipMs src.sampleRate) ∧
    (∀ seg, extractClipSegment clipMs src t = some seg →
      seg.length = clipSamples clipMs src.sampleRate ∧
      0 ≤ clipStart clipMs src.sampleRate src.length t ∧
      clipStart clipMs src.sampleRate src.length t +
        clipSamples clipMs src.sampleRate ≤ src.length ∧
      seg.channels = src.channels.map fun ch =>
        (ch.drop (clipStart clipMs src.sampleRate src.length t).toNat).take
          (clipSamples clipMs src.sampleRate)) ∧
    (src.length = clipSamples clipMs src.sampleRate →
      clipStart clipMs src.sampleRate src.length 0 = 0 ∧
      extractClipSegment clipMs src 0 ≠ none) := by
  refine ⟨?_, ?_, ?_⟩
  · by_cases hk : clipSamples clipMs src.sampleRate ≤ src.length
    · have hb := clipStart_bounds clipMs src.sampleRate src.length t hk
      simp only [extractClipSegment]
      rw [if_neg (by omega)]
      simp only [reduceCtorEq, false_iff]
      omega
    · simp only [extractClipSegment]
      rw [if_pos (by omega)]
      simp only [true_iff]
      omega
  · intro seg hseg
    by_cases hk : clipSamples clipMs src.sampleRate ≤ src.length
    · have hb := clipStart_bounds clipMs src.sampleRate src.length t hk
      simp only [extractClipSegment] at hseg
      rw [if_neg (by omega)] at hseg
      have hseg' := (Option.some.injEq _ _).mp hseg.symm
      subst hseg'
      refine ⟨rfl, hb.1, hb.2, ?_⟩
      simp only
      apply List.map_congr_left
      intro ch hch
      have hlen : ch.length = src.length := hwf ch hch
      apply window_copy
      omega
    · exfalso
      simp only [extractClipSegment] at hseg
      rw [if_pos (by omega)] at hseg
      exact Option.noConfusion hseg
  · intro hlen
    have hstart : clipStart clipMs src.sampleRate src.length 0 = 0 := by
      simp only [clipStart, Int.zero_mul, Int.zero_fdiv]
      split_ifs <;> omega
    refine ⟨hstart, ?_⟩
    simp only [extractClipSegment]
    rw [hstart, if_neg (by omega)]
    exact Option.noConfusion

/-- Witness for `clip_extraction_clamped_window`: a 1 Hz, 3-sample mono
buffer (exactly one 3000 ms clip long), extraction at offset 0. -/
theorem clip_extraction_clamped_window_witness :
    (AudioBufferE.WF ⟨1, 3, [[1, 2, 3]]⟩) ∧
    ((extractClipSegment 3000 (⟨1, 3, [[(1 : ℚ), 2, 3]]⟩ : AudioBufferE ℚ) 0
        = none ↔ (3 : ℕ) < clipSamples 3000 1) ∧
      (∀ seg, extractClipSegment 3000 (⟨1, 3, [[(1 : ℚ), 2, 3]]⟩ : AudioBufferE ℚ) 0
          = some seg →
        seg.length = clipSamples 3000 1 ∧
        0 ≤ clipStart 3000 1 3 0 ∧
        clipStart 3000 1 3 0 + clipSamples 3000 1 ≤ 3 ∧
        seg.channels = [[(1 : ℚ), 2, 3]].map fun ch =>
          (ch.drop (clipStart 3000 1 3 0).toNat).take (clipSamples 3000 1)) ∧
      ((3 : ℕ) = clipSamples 3000 1 →
        clipStart 3000 1 3 0 = 0 ∧
        extractClipSegment 3000 (⟨1, 3, [[(1 : ℚ), 2, 3]]⟩ : AudioBufferE ℚ) 0
          ≠ none)) :=
  ⟨by intro ch hch; simp at hch; simp [hch],
    clip_extraction_clamped_window 3000 ⟨1, 3, [[1, 2, 3]]⟩ 0
      (by intro ch hch; simp at hch; simp [hch])⟩

/-! ## Normalizer lemmas -/

/-- C3 (corrected): `normalizeAudio` works **per channel** — for any target
amplitude `t ∈ (0, 1]` each channel is scaled by its own gain
`min(t / channelPeak, 1)` (1 on a silent channel): the gain never exceeds
1, an all-zero segment is returned unchanged, a channel whose own peak is
1 is scaled by exactly `t`, and only for single-channel segments does this
coincide with the spec's single cross-channel gain. -/
theorem normalize_per_channel_gain {α : Type} [LinearOrderedField α]
    (t : α) (ht1 : t ≤ 1) (channels : List (List α)) :
    (∀ ch ∈ channels, channelGain t ch ≤ 1) ∧
    ((∀ ch ∈ channels, ∀ x ∈ ch, x = 0) → normalizeAudio t channels = channels) ∧
    (∀ ch ∈ channels, channelPeak ch = 1 →
      ch.map (· * channelGain t ch) = ch.map (· * t)) ∧
    (∀ ch : List α, normalizeAudio t [ch] = normalizeAudioUniform t [ch]) := by
  refine ⟨?_, ?_, ?_, ?_⟩
  · intro ch _
    unfold channelGain
    split_ifs
    · exact min_le_right _ _
    · exact le_refl 1
  · intro hz
    unfold normalizeAudio
    have houter : ∀ ch ∈ channels,
        ch.map (· * channelGain t ch) = id ch := by
      intro ch hch
      have hx : ∀ x ∈ ch, x * channelGain t ch = id x := by
        intro x hx
        rw [hz ch hch x hx, zero_mul]
        rfl
      rw [List.map_congr_left hx, List.map_id]
      rfl
    rw [List.map_congr_left houter, List.map_id]
  · intro ch _ hpeak
    have : channelGain t ch = t := by
      unfold channelGain
      rw [hpeak, if_pos one_pos, div_one, min_eq_left ht1]
    rw [this]
  · intro ch
    rfl

/-- Witness for `normalize_per_channel_gain`: target amplitude `7/10` on
the two-channel rational segment `[[1], [1/2]]`. -/
theorem normalize_per_channel_gain_witness :
    ((7 : ℚ) / 10 ≤ 1) ∧
    ((∀ ch ∈ [[(1 : ℚ)], [1 / 2]], channelGain (7 / 10) ch ≤ 1) ∧
      ((∀ ch ∈ [[(1 : ℚ)], [1 / 2]], ∀ x ∈ ch, x = 0) →
        normalizeAudio ((7 : ℚ) / 10) [[1], [1 / 2]] = [[1], [1 / 2]]) ∧
      (∀ ch ∈ [[(1 : ℚ)], [1 / 2]], channelPeak ch = 1 →
        ch.map (· * channelGain ((7 : ℚ) / 10) ch) = ch.map (· * (7 / 10))) ∧
      (∀ ch : List ℚ, normalizeAudio ((7 : ℚ) / 10) [ch] =
        normalizeAudioUniform ((7 : ℚ) / 10) [ch])) :=
  ⟨by norm_num,
    normalize_per_channel_gain ((7 : ℚ) / 10) (by norm_num) _⟩

/-- The genuine `Math.pow(10, -3 / 20)` target amplitude lies in
`[1/2, 1)`. -/
lemma targetAmplitude_bounds :
    1 / 2 ≤ (10 : ℝ) ^ ((-3 : ℝ) / 20) ∧ (10 : ℝ) ^ ((-3 : ℝ) / 20) < 1 := by
  have hlt : (10 : ℝ) ^ ((-3 : ℝ) / 20) < 1 :=
    Real.rpow_lt_one_of_one_lt_of_neg (by norm_num) (by norm_num)
  have hu0 : (0 : ℝ) < (10 : ℝ) ^ ((3 : ℝ) / 20) :=
    Real.rpow_pos_of_pos (by norm_num) _
  have hpow : ((10 : ℝ) ^ ((3 : ℝ) / 20)) ^ (20 : ℕ) = 1000 := by
    rw [← Real.rpow_natCast ((10 : ℝ) ^ ((3 : ℝ) / 20)) 20,
      ← Real.rpow_mul (by norm_num)]
    rw [show (3 : ℝ) / 20 * (20 : ℕ) = ((3 : ℕ) : ℝ) by push_cast; ring]
    rw [Real.rpow_natCast]
    norm_num
  have hu2 : (10 : ℝ) ^ ((3 : ℝ) / 20) ≤ 2 := by
    apply le_of_pow_le_pow_left₀ (n := 20) (by norm_num) (by norm_num)
    rw [hpow]
    norm_num
  have hneg : (10 : ℝ) ^ ((-3 : ℝ) / 20) = ((10 : ℝ) ^ ((3 : ℝ) / 20))⁻¹ := by
    rw [show (-3 : ℝ) / 20 = -((3 : ℝ) / 20) by ring,
      Real.rpow_neg (by norm_num)]
  have hinv : (2 : ℝ)⁻¹ ≤ ((10 : ℝ) ^ ((3 : ℝ) / 20))⁻¹ := inv_anti₀ hu0 hu2
  have hge : 1 / 2 ≤ (10 : ℝ) ^ ((-3 : ℝ) / 20) := by
    rw [hneg]
    calc (1 : ℝ) / 2 = 2⁻¹ := by norm_num
      _ ≤ ((10 : ℝ) ^ ((3 : ℝ) / 20))⁻¹ := hinv
  exact ⟨hge, hlt⟩

/-- Counterexample to C3 as stated: on the two-channel segment
`[[1], [1/2]]` with the real −3 dB target amplitude `10^(−3/20)`, the
source's per-channel normalization differs from the spec's single uniform
cross-channel gain — the quieter channel is left untouched (its own gain
clamps at 1) instead of being scaled by `10^(−3/20)`. -/
theorem normalize_not_uniform_across_channels :
    normalizeAudio ((10 : ℝ) ^ ((-3 : ℝ) / 20)) [[1], [1 / 2]] ≠
      normalizeAudioUniform ((10 : ℝ) ^ ((-3 : ℝ) / 20)) [[1], [1 / 2]] := by
  obtain ⟨hhalf, hlt⟩ := targetAmplitude_bounds
  set T : ℝ := (10 : ℝ) ^ ((-3 : ℝ) / 20) with hT
  have hpeak1 : channelPeak [(1 : ℝ)] = 1 := by
    simp [channelPeak]
  have hpeak2 : channelPeak [(1 : ℝ) / 2] = 1 / 2 := by
    simp [channelPeak]
  have hg1 : channelGain T [(1 : ℝ)] = T := by
    unfold channelGain
    rw [hpeak1, if_pos one_pos, div_one, min_eq_left (le_of_lt hlt)]
  have h1le : (1 : ℝ) ≤ T / (1 / 2) := by
    have h2T : T / (1 / 2) = 2 * T := by ring
    rw [h2T]
    linarith
  have hg2 : channelGain T [(1 : ℝ) / 2] = 1 := by
    unfold channelGain
    rw [hpeak2, if_pos (by norm_num), min_eq_right h1le]
  have hlhs : normalizeAudio T [[1], [1 / 2]] = [[T], [1 / 2]] := by
    unfold normalizeAudio
    simp only [List.map_cons, List.map_nil, hg1, hg2]
    norm_num
  have hpeakU : ([[ (1:ℝ) ], [1 / 2]].foldl
      (fun p ch => ch.foldl (fun q x => max q |x|) p) 0) = 1 := by
    simp only [List.foldl_cons, List.foldl_nil]
    rw [abs_one, abs_of_pos (by norm_num : (0:ℝ) < 1/2)]
    rw [max_eq_right (by norm_num : (0:ℝ) ≤ 1)]
    rw [max_eq_left (by norm_num : (1:ℝ)/2 ≤ 1)]
  have hrhs : normalizeAudioUniform T [[1], [1 / 2]] = [[T], [1 / 2 * T]] := by
    unfold normalizeAudioUniform
    simp only [hpeakU]
    rw [if_pos one_pos, div_one, min_eq_left (le_of_lt hlt)]
    norm_num
  rw [hlhs, hrhs]
  intro h
  have hx : (1 : ℝ) / 2 = 1 / 2 * T := by
    have := congrArg (fun l => (l.getD 1 []).getD 0 0) h
    simpa using this
  nlinarith

/-! ## Selection lemmas -/

/-- Folding stable descending insertions over a nonempty accumulator keeps
the running first maximum at the head. -/
lemma foldl_insert_head :
    ∀ (l : List ScoredCand) (a : ScoredCand) (as : List ScoredCand),
      (List.foldl (fun acc c => insertByScoreDesc c acc) (a :: as) l).head?
        = some (bestOf a l) := by
  intro l
  induction l with
  | nil => intro a as; simp [bestOf]
  | cons c rest ih =>
    intro a as
    by_cases h : a.score < c.score
    · have hins : insertByScoreDesc c (a :: as) = c :: a :: as := by
        simp [insertByScoreDesc, h]
      rw [List.foldl_cons, hins, ih]
      simp [bestOf, h]
    · have hins : insertByScoreDesc c (a :: as) = a :: insertByScoreDesc c as := by
        simp [insertByScoreDesc, h]
      rw [List.foldl_cons, hins, ih]
      simp [bestOf, h]

/-- The selection the source performs (stable sort by descending score,
then `candidates[0]`) computes the first maximum of the filtered list. -/
lemma selectBestScored_eq (minScore : ℚ) (cands : List ScoredCand) :
    selectBestScored minScore cands =
      match cands.filter (fun c => minScore ≤ c.score) with
      | [] => none
      | a :: as => some (bestOf a as) := by
  unfold selectBestScored
  cases hf : cands.filter (fun c => minScore ≤ c.score) with
  | nil => rfl
  | cons a as =>
    have hs : sortByScoreDesc (a :: as)
        = List.foldl (fun acc c => insertByScoreDesc c acc) [a] as := rfl
    rw [hs, foldl_insert_head as a []]

/-- The running best never scores below its seed. -/
lemma bestOf_score_le (l : List ScoredCand) :
    ∀ b : ScoredCand, b.score ≤ (bestOf b l).score := by
  induction l with
  | nil => intro b; exact le_refl _
  | cons c rest ih =>
    intro b
    have hstep : bestOf b (c :: rest)
        = bestOf (if b.score < c.score then c else b) rest := rfl
    rw [hstep]
    by_cases h : b.score < c.score
    · simp only [h, if_true]
      exact le_of_lt (lt_of_lt_of_le h (ih c))
    · simp only [h, if_false]
      exact ih b

/-- The running best splits its list into a strictly lower-scored prefix,
itself, and a not-higher-scored suffix: it is the first maximum. -/
lemma bestOf_decomp (l : List ScoredCand) :
    ∀ b : ScoredCand,
      ∃ pre post, b :: l = pre ++ bestOf b l :: post ∧
        (∀ d ∈ pre, d.score < (bestOf b l).score) ∧
        (∀ d ∈ post, d.score ≤ (bestOf b l).score) := by
  induction l with
  | nil =>
    intro b
    exact ⟨[], [], rfl, by simp, by simp⟩
  | cons c rest ih =>
    intro b
    by_cases h : b.score < c.score
    · have hb : bestOf b (c :: rest) = bestOf c rest := by
        show bestOf (if b.score < c.score then c else b) rest = _
        rw [if_pos h]
      obtain ⟨pre, post, heq, hpre, hpost⟩ := ih c
      refine ⟨b :: pre, post, ?_, ?_, ?_⟩
      · rw [hb, List.cons_append, ← heq]
      · intro d hd
        rcases List.mem_cons.mp hd with rfl | hd'
        · rw [hb]
          exact lt_of_lt_of_le h (bestOf_score_le rest c)
        · rw [hb]
          exact hpre d hd'
      · intro d hd
        rw [hb]
        exact hpost d hd
    · have hb : bestOf b (c :: rest) = bestOf b rest := by
        show bestOf (if b.score < c.score then c else b) rest = _
        rw [if_neg h]
      obtain ⟨pre, post, heq, hpre, hpost⟩ := ih b
      cases pre with
      | nil =>
        rw [List.nil_append] at heq
        obtain ⟨hb2, hrest⟩ := List.cons_eq_cons.mp heq
        refine ⟨[], c :: rest, ?_, by simp, ?_⟩
        · rw [hb, List.nil_append, ← hb2]
        · intro d hd
          rcases List.mem_cons.mp hd with rfl | hd'
          · rw [hb, ← hb2]
            exact le_of_not_lt h
          · rw [hb]
            exact hpost d (hrest ▸ hd')
      | cons p ps =>
        rw [List.cons_append] at heq
        obtain ⟨hbp, hrest⟩ := List.cons_eq_cons.mp heq
        refine ⟨b :: c :: ps, post, ?_, ?_, ?_⟩
        · rw [hb]
          simp only [List.cons_append]
          rw [← hrest]
        · intro d hd
          have hbscore : b.score < (bestOf b rest).score := by
            have := hpre p (List.mem_cons_self p ps)
            rwa [← hbp] at this
          rcases List.mem_cons.mp hd with rfl | hd'
          · rw [hb]; exact hbscore
          · rcases List.mem_cons.mp hd' with rfl | hd''
            · rw [hb]
              exact lt_of_le_of_lt (le_of_not_lt h) hbscore
            · rw [hb]
              exact hpre d (List.mem_cons_of_mem p hd'')
        · intro d hd
          rw [hb]
          exact hpost d hd

/-- C5 (corrected): selection keeps the candidates whose score reaches the
floor, returns `none` exactly when none survives, and otherwise returns
the **first** maximal-scored survivor in input order (every earlier
survivor scores strictly lower, every later one not higher) — which is the
earliest `timeOffsetMs` only when the input list is time-ordered.  The two
concrete examples of the claim do hold. -/
theorem selection_floor_and_first_max (minScore : ℚ) (cands : List ScoredCand) :
    (selectBestScored minScore cands = none ↔
      cands.filter (fun c => minScore ≤ c.score) = []) ∧
    (∀ ch, selectBestScored minScore cands = some ch →
      ∃ pre post,
        cands.filter (fun c => minScore ≤ c.score) = pre ++ ch :: post ∧
        (∀ d ∈ pre, d.score < ch.score) ∧
        (∀ d ∈ post, d.score ≤ ch.score)) ∧
    selectBestScored MIN_YAMNET_SCORE
      [⟨0, 3 / 10⟩, ⟨1, 1 / 2⟩, ⟨2, 9 / 10⟩] = some ⟨2, 9 / 10⟩ ∧
    selectBestScored MIN_YAMNET_SCORE [⟨0, 1 / 10⟩, ⟨1, 1 / 5⟩] = none := by
  refine ⟨?_, ?_, by
    norm_num [selectBestScored, MIN_YAMNET_SCORE, sortByScoreDesc,
      insertByScoreDesc, List.filter], by
    norm_num [selectBestScored, MIN_YAMNET_SCORE, sortByScoreDesc,
      insertByScoreDesc, List.filter]⟩
  · rw [selectBestScored_eq]
    cases hf : cands.filter (fun c => minScore ≤ c.score) with
    | nil => simp
    | cons a as => simp
  · intro ch hch
    rw [selectBestScored_eq] at hch
    cases hf : cands.filter (fun c => minScore ≤ c.score) with
    | nil =>
      rw [hf] at hch
      simp at hch
    | cons a as =>
      rw [hf] at hch
      have hbest : ch = bestOf a as := by
        simpa using hch.symm
      obtain ⟨pre, post, heq, hpre, hpost⟩ := bestOf_decomp as a
      exact ⟨pre, post, by rw [hbest]; exact heq, by rw [hbest]; exact hpre,
        by rw [hbest]; exact hpost⟩

/-- Witness for `selection_floor_and_first_max`: floor 2/5 on two
candidates with scores 1/2 and 4/5. -/
theorem selection_floor_and_first_max_witness :
    (selectBestScored (2 / 5) [⟨7, 1 / 2⟩, ⟨9, 4 / 5⟩]
      = some (⟨9, 4 / 5⟩ : ScoredCand)) ∧
    (∃ pre post,
      ([⟨7, 1 / 2⟩, ⟨9, 4 / 5⟩] : List ScoredCand).filter
          (fun c => 2 / 5 ≤ c.score) = pre ++ (⟨9, 4 / 5⟩ : ScoredCand) :: post ∧
      (∀ d ∈ pre, d.score < (⟨9, 4 / 5⟩ : ScoredCand).score) ∧
      (∀ d ∈ post, d.score ≤ (⟨9, 4 / 5⟩ : ScoredCand).score)) :=
  ⟨by norm_num [selectBestScored, sortByScoreDesc, insertByScoreDesc,
      List.filter],
    (selection_floor_and_first_max (2 / 5) [⟨7, 1 / 2⟩, ⟨9, 4 / 5⟩]).2.1
      ⟨9, 4 / 5⟩ (by norm_num [selectBestScored, sortByScoreDesc,
        insertByScoreDesc, List.filter])⟩

/-- Counterexample to C5 as stated: two surviving candidates tie at score
9/10 but the later `timeOffsetMs = 500` one is listed first; the source's
stable sort keeps it in front, so selection returns the time-500
candidate, not the earliest-time (100) one the claim demands. -/
theorem selection_tie_not_earliest_time :
    selectBestScored MIN_YAMNET_SCORE [⟨500, 9 / 10⟩, ⟨100, 9 / 10⟩]
      = some (⟨500, 9 / 10⟩ : ScoredCand) ∧
    selectBestScored MIN_YAMNET_SCORE [⟨500, 9 / 10⟩, ⟨100, 9 / 10⟩]
      ≠ some (⟨100, 9 / 10⟩ : ScoredCand) := by
  constructor
  · norm_num [selectBestScored, MIN_YAMNET_SCORE, sortByScoreDesc,
      insertByScoreDesc, List.filter]
  · norm_num [selectBestScored, MIN_YAMNET_SCORE, sortByScoreDesc,
      insertByScoreDesc, List.filter]

/-! ## Session controller theorems -/

/-- C6 (corrected): `startRecording` performs no already-active check — its
outcome depends only on the capture environment, never on the current
controller state, and on success it installs a fresh session (resetting
duration, laugh count and detection, re-arming both intervals) even when
one is already running. -/
theorem start_recording_unguarded (env : CaptureEnv) (now : ℤ)
    (s : RecorderState) :
    ((startRecording env now s).isOk = true ↔
      env.secureContext = true ∧ env.hasMicrophone = true ∧
        env.userMediaGranted = true) ∧
    (∀ s', startRecording env now s = .ok s' →
      s'.isRecording = true ∧ s'.isPaused = false ∧ s'.duration = 0 ∧
      s'.laughCount = 0 ∧ s'.detect = DetectState.init ∧
      s'.durationInterval = true ∧ s'.volumeInterval = true ∧
      s'.startTime = now) := by
  obtain ⟨sc, mic, gr⟩ := env
  cases sc <;> cases mic <;> cases gr <;>
    simp only [startRecording, Bool.not_true, Bool.not_false, if_true,
      if_false, ite_true, ite_false] <;>
    constructor <;>
    simp [Except.isOk, Except.toBool]

/-- Witness for `start_recording_unguarded`: a fully available capture
environment, called at time 5000 while `midRecordingState` is recording. -/
theorem start_recording_unguarded_witness :
    (startRecording ⟨true, true, true⟩ 5000 midRecordingState
      = .ok { isRecording := true, isPaused := false, duration := 0,
              volume := 30, laughCount := 0, error := none,
              mrState := .recording, hasMediaRecorder := true,
              hasStream := true, hasAnalyser := true,
              durationInterval := true, volumeInterval := true,
              startTime := 5000, detect := DetectState.init }) ∧
    (({ isRecording := true, isPaused := false, duration := 0,
        volume := 30, laughCount := 0, error := none,
        mrState := .recording, hasMediaRecorder := true,
        hasStream := true, hasAnalyser := true,
        durationInterval := true, volumeInterval := true,
        startTime := 5000, detect := DetectState.init } : RecorderState).isRecording
        = true ∧
      ({ isRecording := true, isPaused := false, duration := 0,
         volume := 30, laughCount := 0, error := none,
         mrState := .recording, hasMediaRecorder := true,
         hasStream := true, hasAnalyser := true,
         durationInterval := true, volumeInterval := true,
         startTime := 5000, detect := DetectState.init } : RecorderState).isPaused
        = false ∧
      (0 : ℚ) = 0 ∧ (0 : ℕ) = 0 ∧ DetectState.init = DetectState.init ∧
      true = true ∧ true = true ∧ (5000 : ℤ) = 5000) := by
  constructor
  · rfl
  · have h := (start_recording_unguarded ⟨true, true, true⟩ 5000
      midRecordingState).2 _ rfl
    exact h

/-- Counterexample to C6 as stated: with microphone available, calling
`startRecording` while the controller is already recording succeeds — it
is not rejected with an error. -/
theorem start_while_recording_not_rejected :
    midRecordingState.isRecording = true ∧
    (startRecording ⟨true, true, true⟩ 5000 midRecordingState).isOk = true :=
  ⟨rfl, rfl⟩

/-- C10: pausing only suspends the encoder and sets `isPaused`; neither
100 ms interval is touched by pause (or resume, or the ticks themselves),
so while paused a duration tick still advances the reported duration and a
volume tick still runs laugh detection and can increment `laughCount`; the
intervals are cleared (only) by `stopRecording` and by component
teardown. -/
theorem pause_keeps_timers_running (θ m c : ℤ) :
    (∀ s : RecorderState, s.hasMediaRecorder = true → s.mrState = .recording →
      pauseRecording s = { s with mrState := .paused, isPaused := true }) ∧
    (∀ s : RecorderState,
      (pauseRecording s).durationInterval = s.durationInterval ∧
      (pauseRecording s).volumeInterval = s.volumeInterval ∧
      (resumeRecording s).durationInterval = s.durationInterval ∧
      (resumeRecording s).volumeInterval = s.volumeInterval ∧
      (∀ now : ℤ, (durationTick now s).durationInterval = s.durationInterval ∧
        (durationTick now s).volumeInterval = s.volumeInterval) ∧
      (∀ now vol : ℤ,
        (volumeTick θ m c now vol s).durationInterval = s.durationInterval ∧
        (volumeTick θ m c now vol s).volumeInterval = s.volumeInterval)) ∧
    (∀ (s : RecorderState) (now₁ now₂ : ℤ), s.durationInterval = true →
      now₁ < now₂ →
      (durationTick now₁ s).duration < (durationTick now₂ s).duration) ∧
    (∀ (s : RecorderState) (now vol ls : ℤ), s.volumeInterval = true →
      θ < vol → s.detect.loudStart = some ls → m ≤ now - ls →
      c ≤ now - s.detect.lastLaugh →
      (volumeTick θ m c now vol s).laughCount = s.detect.count + 1) ∧
    (∀ s : RecorderState,
      (stopRecording s).durationInterval = false ∧
      (stopRecording s).volumeInterval = false ∧
      (cleanup s).durationInterval = false ∧
      (cleanup s).volumeInterval = false) := by
  refine ⟨?_, ?_, ?_, ?_, ?_⟩
  · intro s h1 h2
    unfold pauseRecording
    rw [if_pos ⟨h1, h2⟩]
  · intro s
    refine ⟨?_, ?_, ?_, ?_, ?_, ?_⟩
    · unfold pauseRecording
      split_ifs <;> rfl
    · unfold pauseRecording
      split_ifs <;> rfl
    · unfold resumeRecording
      split_ifs <;> rfl
    · unfold resumeRecording
      split_ifs <;> rfl
    · intro now
      unfold durationTick
      split_ifs <;> exact ⟨rfl, rfl⟩
    · intro now vol
      unfold volumeTick
      split_ifs <;> exact ⟨rfl, rfl⟩
  · intro s now₁ now₂ hdi hlt
    simp only [durationTick, hdi, ite_true]
    have : ((now₁ - s.startTime : ℤ) : ℚ) < ((now₂ - s.startTime : ℤ) : ℚ) := by
      exact_mod_cast (by omega : now₁ - s.startTime < now₂ - s.startTime)
    exact div_lt_div_of_pos_right this (show (0 : ℚ) < 1000 by norm_num)
  · intro s now vol ls hvi hθ hls hm hc
    unfold volumeTick
    rw [if_pos hvi]
    have hd : detectLaugh θ m c s.detect now vol
        = (⟨none, now, s.detect.count + 1⟩, some ⟨now, ls⟩) := by
      unfold detectLaugh
      rw [if_pos hθ]
      rw [hls]
      simp only [Option.getD_some]
      rw [if_pos ⟨hm, hc⟩]
    rw [hd]
  · intro s
    refine ⟨?_, ?_, rfl, rfl⟩ <;>
      (simp only [stopRecording]; split_ifs <;> rfl)

/-- Witness for `pause_keeps_timers_running`: `midRecordingState` paused,
then ticked at later times with a loud sample that satisfies sustain and
cooldown. -/
theorem pause_keeps_timers_running_witness :
    (midRecordingState.hasMediaRecorder = true ∧
      midRecordingState.mrState = .recording ∧
      (pauseRecording midRecordingState).durationInterval = true ∧
      (pauseRecording midRecordingState).volumeInterval = true ∧
      (pauseRecording midRecordingState).isPaused = true) ∧
    ((3000 : ℤ) < 3100 ∧
      (durationTick 3000 (pauseRecording midRecordingState)).duration <
        (durationTick 3100 (pauseRecording midRecordingState)).duration) ∧
    ((50 : ℤ) < 60 ∧
      (volumeTick 50 100 500 3100 60
        { pauseRecording midRecordingState with detect := ⟨some 2900, 1500, 1⟩ }).laughCount
        = 2) := by
  refine ⟨⟨rfl, rfl, rfl, rfl, ?_⟩, ⟨by norm_num, ?_⟩, ⟨by norm_num, ?_⟩⟩
  · have h := (pause_keeps_timers_running 50 100 500).1 midRecordingState rfl rfl
    rw [h]
  · exact (pause_keeps_timers_running 50 100 500).2.2.1
      (pauseRecording midRecordingState) 3000 3100 rfl (by norm_num)
  · exact (pause_keeps_timers_running 50 100 500).2.2.2.1
      { pauseRecording midRecordingState with detect := ⟨some 2900, 1500, 1⟩ }
      3100 60 2900 rfl (by norm_num) rfl (by norm_num) (by norm_num)

/-! ## Scorer theorems -/

/-- Every scoring failure (unloaded model, inference exception, resampling
exception) is absorbed as the score 0 for that candidate. -/
lemma scoreClip_zero_of_failure (resampleOk : Bool) (r : InferResult)
    (h : resampleOk = false ∨ r = .notLoaded ∨ r = .failed) :
    scoreClip resampleOk r = 0 := by
  rcases h with h | h | h
  · rw [h]
    rfl
  · cases resampleOk <;> simp [scoreClip, h, predict]
  · cases resampleOk <;> simp [scoreClip, h, predict]

/-- C7: scoring failures yield score 0 instead of exceptions, and
per-candidate extraction/scoring failures are absorbed by the selection
pass — when every candidate's extraction fails or its scoring fails, the
whole pass returns `none` (no suitable clip), never an error. -/
theorem per_candidate_failures_absorbed :
    predict .notLoaded = 0 ∧ predict .failed = 0 ∧
    (∀ r : InferResult, scoreClip false r = 0) ∧
    (∀ b : Bool, scoreClip b .notLoaded = 0 ∧ scoreClip b .failed = 0) ∧
    (∀ (src : AudioBufferE ℚ) (laughs : List LaughInput),
      (∀ l ∈ laughs,
        extractClipSegment CLIP_DURATION_MS src l.time = none ∨
        l.resampleOk = false ∨ l.infer = .notLoaded ∨ l.infer = .failed) →
      extractBestLaugh src laughs = none) := by
  refine ⟨rfl, rfl, ?_, ?_, ?_⟩
  · intro r
    exact scoreClip_zero_of_failure false r (Or.inl rfl)
  · intro b
    exact ⟨scoreClip_zero_of_failure b _ (Or.inr (Or.inl rfl)),
      scoreClip_zero_of_failure b _ (Or.inr (Or.inr rfl))⟩
  · intro src laughs hall
    unfold extractBestLaugh
    by_cases hemp : laughs.isEmpty
    · rw [if_pos hemp]
    · rw [if_neg hemp]
      by_cases hshort : src.length < clipSamples CLIP_DURATION_MS src.sampleRate
      · rw [if_pos hshort]
      · rw [if_neg hshort]
        rw [selectBestScored_eq]
        have hfil : (laughs.filterMap fun l =>
            match extractClipSegment CLIP_DURATION_MS src l.time with
            | none => none
            | some _clip =>
              some (⟨l.time, scoreClip l.resampleOk l.infer⟩ : ScoredCand)).filter
              (fun c => MIN_YAMNET_SCORE ≤ c.score) = [] := by
          rw [List.filter_eq_nil_iff]
          intro c hc
          rw [List.mem_filterMap] at hc
          obtain ⟨l, hl, hfl⟩ := hc
          have hscore : c.score = 0 := by
            cases hext : extractClipSegment CLIP_DURATION_MS src l.time with
            | none =>
              rw [hext] at hfl
              exact absurd hfl (by simp)
            | some clip =>
              rw [hext] at hfl
              simp only [Option.some.injEq] at hfl
              have hfail : l.resampleOk = false ∨ l.infer = .notLoaded ∨
                  l.infer = .failed := by
                rcases hall l hl with hnone | h | h | h
                · rw [hext] at hnone
                  exact absurd hnone (by simp)
                · exact Or.inl h
                · exact Or.inr (Or.inl h)
                · exact Or.inr (Or.inr h)
              rw [← hfl]
              exact scoreClip_zero_of_failure l.resampleOk l.infer hfail
          rw [hscore]
          simp [MIN_YAMNET_SCORE]
        rw [hfil]

/-- Witness for `per_candidate_failures_absorbed`: a clip-length mono
buffer whose two laugh candidates fail (resampling throws for one, the
model is unloaded for the other). -/
theorem per_candidate_failures_absorbed_witness :
    (∀ l ∈ [(⟨0, false, .ok [[1]]⟩ : LaughInput), ⟨1, true, .notLoaded⟩],
      extractClipSegment CLIP_DURATION_MS (⟨1, 3, [[0, 0, 0]]⟩ : AudioBufferE ℚ)
          l.time = none ∨
        l.resampleOk = false ∨ l.infer = .notLoaded ∨ l.infer = .failed) ∧
    extractBestLaugh (⟨1, 3, [[0, 0, 0]]⟩ : AudioBufferE ℚ)
      [⟨0, false, .ok [[1]]⟩, ⟨1, true, .notLoaded⟩] = none := by
  have hall : ∀ l ∈ [(⟨0, false, .ok [[1]]⟩ : LaughInput), ⟨1, true, .notLoaded⟩],
      extractClipSegment CLIP_DURATION_MS (⟨1, 3, [[0, 0, 0]]⟩ : AudioBufferE ℚ)
          l.time = none ∨
        l.resampleOk = false ∨ l.infer = .notLoaded ∨ l.infer = .failed := by
    intro l hl
    rcases List.mem_cons.mp hl with rfl | hl'
    · exact Or.inr (Or.inl rfl)
    · rcases List.mem_cons.mp hl' with rfl | hl''
      · exact Or.inr (Or.inr (Or.inl rfl))
      · cases hl''
  exact ⟨hall, per_candidate_failures_absorbed.2.2.2.2 _ _ hall⟩

/-- C9 (code bug): with the model emitting a single frame whose per-class
scores are all 1 (each individually inside `[0, 1]`), `predict` returns
the **sum** of the six laughter-family class scores, 6 — outside the
`[0, 1]` range that the service's own `yamnetScore: // 0-1` documentation,
the 0.4 quality floor and the spec all assume. -/
theorem predict_sum_exceeds_unit_interval :
    (∀ q ∈ List.replicate 22 (1 : ℚ), 0 ≤ q ∧ q ≤ 1) ∧
    predict (.ok [List.replicate 22 (1 : ℚ)]) = 6 ∧
    ¬ predict (.ok [List.replicate 22 (1 : ℚ)]) ≤ 1 := by
  have hval : predict (.ok [List.replicate 22 (1 : ℚ)]) = 6 := by
    norm_num [predict, meanScore, LAUGHTER_INDEX, List.replicate, List.getD]
  refine ⟨?_, hval, ?_⟩
  · intro q hq
    rw [List.eq_of_mem_replicate hq]
    norm_num
  · rw [hval]
    norm_num

end Lafter
